import Mathlib

/-!
Shallow embedding of `src/create_icon.py`: the icon renderer
`create_house_with_sound_icon`, the exporter `create_ico`, and the
`__main__` entry point, together with a geometric model of the drawing
surface used to reason about rendered pixels.

Coordinates are exact rationals modelling Python's float arithmetic: every
quantity the script computes is of the form `c * size / 24` for a small
constant `c`, or an integer truncation of such a value, and the float
computation agrees with the exact rational value at every integer size
(the fractional parts involved are never within float rounding error of
an integer they do not attain).
-/

namespace CreateIcon

/-- An RGBA color with 8-bit channels, as used by PIL. -/
structure Color where
  r : ℕ
  g : ℕ
  b : ℕ
  a : ℕ
deriving DecidableEq

/-- The foreground color `(40, 40, 40, 255)` (src/create_icon.py, line 36). -/
def color : Color := ⟨40, 40, 40, 255⟩

/-- The window fill color `(200, 200, 200, 255)` (line 78). -/
def windowGray : Color := ⟨200, 200, 200, 255⟩

/-- A bounding box `[x0, y0, x1, y1]` in pixel coordinates, in the order the
PIL drawing calls take it. -/
structure BBox where
  x0 : ℚ
  y0 : ℚ
  x1 : ℚ
  y1 : ℚ
deriving DecidableEq

/-- One drawing call issued against the PIL drawing surface.  The script uses
`draw.arc` (bounding box, start and end angle in degrees, stroke color and
width), `draw.polygon` (vertex list, fill and outline color) and
`draw.rectangle` (bounding box, fill color, outline color and outline
width). -/
inductive Command where
  | arc (bbox : BBox) (startAngle endAngle : ℤ) (fill : Color) (width : ℕ)
  | polygon (points : List (ℚ × ℚ)) (fill : Color) (outline : Color)
  | rectangle (bbox : BBox) (fill : Color) (outline : Color) (width : ℕ)
deriving DecidableEq

/-- The canvas produced by the renderer: its dimensions, the color every
pixel is initialized to by `Image.new` (line 29), and the sequence of drawing
calls applied to it, in program order. -/
structure Canvas where
  width : ℕ
  height : ℕ
  background : Color
  commands : List Command
deriving DecidableEq

/-- `scale = size / 24` (line 33). -/
def scale (size : ℕ) : ℚ := (size : ℚ) / 24

/-- `line_width = max(1, int(scale * 0.8))` (line 37).  Python `int`
truncates toward zero; the operand is nonnegative, so this is the floor. -/
def line_width (size : ℕ) : ℕ := max 1 (⌊scale size * (4 / 5)⌋).toNat

/-- Shallow embedding of `create_house_with_sound_icon` (lines 18-80): the
canvas it creates and the exact sequence of drawing calls it issues, with
every coordinate written as in the source. -/
def create_house_with_sound_icon (size : ℕ) : Canvas :=
  let sc := scale size
  let lw := line_width size
  let body_x1 := 7 * sc
  let body_y1 := 12 * sc
  let body_x2 := 19 * sc
  let body_y2 := 22 * sc
  { width := size
    height := size
    background := ⟨255, 255, 255, 0⟩
    commands :=
      [ Command.arc ⟨(1 / 2) * sc, 1 * sc, (15 / 2) * sc, (15 / 2) * sc⟩ (-10) 100 color lw
      , Command.arc ⟨2 * sc, (5 / 2) * sc, 7 * sc, (15 / 2) * sc⟩ (-10) 100 color lw
      , Command.arc ⟨4 * sc, (9 / 2) * sc, 7 * sc, (15 / 2) * sc⟩ (-10) 100 color lw
      , Command.polygon [(9 * sc, 2 * sc), (19 * sc, 12 * sc), (7 * sc, 12 * sc)] color color
      , Command.rectangle ⟨body_x1, body_y1, body_x2, body_y2⟩ color color 1
      ] ++
      (if 32 ≤ size then
        let window_margin := sc * 2
        let window_size := sc * 3
        let window_x1 := body_x1 + window_margin
        let window_y1 := body_y1 + window_margin
        let window_x2 := window_x1 + window_size
        let window_y2 := window_y1 + window_size
        [ Command.rectangle ⟨window_x1, window_y1, window_x2, window_y2⟩
            windowGray color (max 1 (lw / 2)) ]
      else []) }

/-- Membership in the closed elliptical disc with center `(cx, cy)` and
semi-axes `rx, ry`, written without division. -/
def inClosedEllipse (cx cy rx ry : ℚ) (p : ℚ × ℚ) : Prop :=
  (p.1 - cx) ^ 2 * ry ^ 2 + (p.2 - cy) ^ 2 * rx ^ 2 ≤ rx ^ 2 * ry ^ 2

/-- Membership in the open elliptical disc with center `(cx, cy)` and
semi-axes `rx, ry`; empty when a semi-axis is not positive. -/
def inOpenEllipse (cx cy rx ry : ℚ) (p : ℚ × ℚ) : Prop :=
  0 < rx ∧ 0 < ry ∧ (p.1 - cx) ^ 2 * ry ^ 2 + (p.2 - cy) ^ 2 * rx ^ 2 < rx ^ 2 * ry ^ 2

/-- Geometric model of the coverage of a PIL arc stroke of width `w` drawn in
the bounding box `b`: the closed ellipse inscribed in `b` minus the open
ellipse shrunk inward by `w`.  The start and end angle of the arc only remove
points from this ring; the model conservatively ignores them (no property
proved below depends on the angular extent of the stroke). -/
def inArcStroke (b : BBox) (w : ℕ) (p : ℚ × ℚ) : Prop :=
  inClosedEllipse ((b.x0 + b.x1) / 2) ((b.y0 + b.y1) / 2)
      ((b.x1 - b.x0) / 2) ((b.y1 - b.y0) / 2) p ∧
  ¬ inOpenEllipse ((b.x0 + b.x1) / 2) ((b.y0 + b.y1) / 2)
      ((b.x1 - b.x0) / 2 - w) ((b.y1 - b.y0) / 2 - w) p

/-- Membership in the closed axis-aligned rectangle with bounding box `b`. -/
def inRect (b : BBox) (p : ℚ × ℚ) : Prop :=
  b.x0 ≤ p.1 ∧ p.1 ≤ b.x1 ∧ b.y0 ≤ p.2 ∧ p.2 ≤ b.y1

/-- The border band of width `w` of the rectangle `b`: the part of the
rectangle within `w` of one of its four edges (PIL draws a rectangle's
outline of width `w` inward from the edges). -/
def inRectBorder (b : BBox) (w : ℕ) (p : ℚ × ℚ) : Prop :=
  p.1 < b.x0 + w ∨ b.x1 - w < p.1 ∨ p.2 < b.y0 + w ∨ b.y1 - w < p.2

/-- Cross product of `a - o` and `p - o`, used for triangle membership. -/
def cross (o a p : ℚ × ℚ) : ℚ :=
  (a.1 - o.1) * (p.2 - o.2) - (a.2 - o.2) * (p.1 - o.1)

/-- Membership in the closed triangle with vertices `p1, p2, p3`: the point
is on the same side (weakly) of all three directed edges. -/
def inTriangle (p1 p2 p3 p : ℚ × ℚ) : Prop :=
  (0 ≤ cross p1 p2 p ∧ 0 ≤ cross p2 p3 p ∧ 0 ≤ cross p3 p1 p) ∨
  (cross p1 p2 p ≤ 0 ∧ cross p2 p3 p ≤ 0 ∧ cross p3 p1 p ≤ 0)

instance (cx cy rx ry : ℚ) (p : ℚ × ℚ) : Decidable (inClosedEllipse cx cy rx ry p) := by
  unfold inClosedEllipse; infer_instance

instance (cx cy rx ry : ℚ) (p : ℚ × ℚ) : Decidable (inOpenEllipse cx cy rx ry p) := by
  unfold inOpenEllipse; infer_instance

instance (b : BBox) (w : ℕ) (p : ℚ × ℚ) : Decidable (inArcStroke b w p) := by
  unfold inArcStroke; infer_instance

instance (b : BBox) (p : ℚ × ℚ) : Decidable (inRect b p) := by
  unfold inRect; infer_instance

instance (b : BBox) (w : ℕ) (p : ℚ × ℚ) : Decidable (inRectBorder b w p) := by
  unfold inRectBorder; infer_instance

instance (p1 p2 p3 p : ℚ × ℚ) : Decidable (inTriangle p1 p2 p3 p) := by
  unfold inTriangle; infer_instance

/-- The color contributed by one drawing call at the point `p`, if any.  An
arc stroke contributes its stroke color on its coverage; a polygon its fill
color on the triangle it encloses (the script only ever draws a triangle,
whose outline has the same color as its fill); a rectangle its outline color
on the border band and its fill color on the rest of its area. -/
def Command.colorAt (cmd : Command) (p : ℚ × ℚ) : Option Color :=
  match cmd with
  | .arc b _sa _ea f w => if inArcStroke b w p then some f else none
  | .polygon pts f _o =>
      match pts with
      | [p1, p2, p3] => if inTriangle p1 p2 p3 p then some f else none
      | _ => none
  | .rectangle b f o w =>
      if inRect b p then (if inRectBorder b w p then some o else some f) else none

/-- The color of the canvas at the point `p` after all drawing calls have
been applied in program order: the painter's algorithm, where each drawing
call overwrites whatever is below it wherever it covers `p`. -/
def pixelColor (c : Canvas) (p : ℚ × ℚ) : Color :=
  c.commands.foldl (fun acc cmd => (cmd.colorAt p).getD acc) c.background

/-- The fixed size list of `create_ico` (line 82). -/
def icoSizes : List ℕ := [16, 24, 32, 48, 256]

/-- The arguments of the single `save` call issued by `create_ico`
(lines 103-108): the list of rendered canvases (the first of which is the
image whose `save` method is invoked, the rest being passed as
`append_images`), and the value of the `sizes` keyword. -/
structure IcoSaveCall where
  images_data : List Canvas
  sizes : List (ℕ × ℕ)
deriving DecidableEq

/-- Data-flow model of `create_ico` (lines 82-112): one canvas is rendered
per entry of `sizes`, in list order, and a single save call is issued with
the first canvas as base image, the remaining canvases appended, and the
`sizes` keyword set to the dimension pairs of the rendered canvases. -/
def create_ico_call (sizes : List ℕ) : IcoSaveCall :=
  let images_data := sizes.map create_house_with_sound_icon
  { images_data := images_data
    sizes := images_data.map fun img => (img.width, img.height) }

/-- Insert a dimension pair into a lexicographically sorted list. -/
def insertPair (x : ℕ × ℕ) : List (ℕ × ℕ) → List (ℕ × ℕ)
  | [] => [x]
  | y :: ys =>
      if x.1 < y.1 ∨ (x.1 = y.1 ∧ x.2 ≤ y.2) then x :: y :: ys else y :: insertPair x ys

/-- Sort a list of dimension pairs lexicographically (insertion sort),
modelling Python's `sorted`. -/
def sortPairs (l : List (ℕ × ℕ)) : List (ℕ × ℕ) := l.foldr insertPair []

/-- Frame-size selection of Pillow's ICO writer, which the save call on
lines 103-108 hands the rendered images to.  Per Pillow's documented ICO
save semantics, the requested `sizes` are deduplicated and sorted, and every
size larger than the base image (the image whose `save` method is called,
here `images_data[0]`) or larger than 256 is ignored; each surviving size
becomes one frame of the written container. -/
def icoFrameSizes (images_data : List Canvas) (sizes : List (ℕ × ℕ)) : List (ℕ × ℕ) :=
  match images_data with
  | [] => []
  | base :: _ =>
      (sortPairs sizes.dedup).filter fun sz =>
        decide (sz.1 ≤ base.width) && decide (sz.2 ≤ base.height) &&
        decide (sz.1 ≤ 256) && decide (sz.2 ≤ 256)

/-- The abstract effectful operations the script performs, each of which may
raise an exception of type `E`: rendering one canvas (which can fail with a
drawing-library fault), writing the PNG file, and writing the ICO file.
Instantiating these with succeeding or failing operations models the
possible runs of the script. -/
structure Ops (E : Type) where
  render : ℕ → Except E Canvas
  savePng : Canvas → Except E Unit
  saveIco : List Canvas → List (ℕ × ℕ) → Except E Unit

/-- Control-flow model of `create_ico` (lines 82-112) over the abstract
operations: render once per size, in list order, then issue the single save
call.  The function contains no exception handler, so any exception raised
by a render or by the save propagates to the caller. -/
def create_ico (E : Type) (ops : Ops E) (sizes : List ℕ) : Except E Unit := do
  let images_data ← sizes.mapM ops.render
  ops.saveIco images_data (images_data.map fun img => (img.width, img.height))

/-- The body of the `try` block of `__main__` (lines 118-129): render and
save the 48 pixel PNG, then build the multi-resolution ICO. -/
def main_body (E : Type) (ops : Ops E) : Except E Unit := do
  let png_icon ← ops.render 48
  ops.savePng png_icon
  create_ico E ops icoSizes

/-- The outcome of a run of `__main__`: the process exit status, and the
exception received by the top-level handler (which prints a human-readable
message for it and its full stack trace, lines 130-133), if any. -/
structure MainResult (E : Type) where
  exitStatus : ℕ
  logged : Option E

/-- Model of `__main__` (lines 114-134): the whole pipeline runs inside one
`try` block; on success the process exits normally, and any exception is
caught by the single top-level handler, logged, and turned into
`sys.exit(1)`. -/
def main (E : Type) (ops : Ops E) : MainResult E :=
  match main_body E ops with
  | .ok _ => ⟨0, none⟩
  | .error e => ⟨1, some e⟩

/-- The stroke widths of the arc commands of a canvas, in order. -/
def arcWidths (c : Canvas) : List ℕ :=
  c.commands.filterMap fun cmd =>
    match cmd with
    | .arc _ _ _ _ w => some w
    | _ => none

/-- The stroke width the specification asserts: `scale * 0.8` rounded
arithmetically to the nearest integer (halves away from zero), clamped to a
minimum of 1. -/
def specRoundedLineWidth (size : ℕ) : ℕ :=
  max 1 (⌊scale size * (4 / 5) + 1 / 2⌋).toNat

/-- The outermost sound-wave arc command (lines 41-42). -/
def arc1 (s : ℕ) : Command :=
  Command.arc ⟨(1 / 2) * scale s, 1 * scale s, (15 / 2) * scale s, (15 / 2) * scale s⟩
    (-10) 100 color (line_width s)

/-- The middle sound-wave arc command (lines 45-46). -/
def arc2 (s : ℕ) : Command :=
  Command.arc ⟨2 * scale s, (5 / 2) * scale s, 7 * scale s, (15 / 2) * scale s⟩
    (-10) 100 color (line_width s)

/-- The innermost sound-wave arc command (lines 49-50). -/
def arc3 (s : ℕ) : Command :=
  Command.arc ⟨4 * scale s, (9 / 2) * scale s, 7 * scale s, (15 / 2) * scale s⟩
    (-10) 100 color (line_width s)

/-- The filled roof triangle command (lines 54-59). -/
def roofCmd (s : ℕ) : Command :=
  Command.polygon [(9 * scale s, 2 * scale s), (19 * scale s, 12 * scale s),
    (7 * scale s, 12 * scale s)] color color

/-- The filled body rectangle command (lines 62-66). -/
def bodyCmd (s : ℕ) : Command :=
  Command.rectangle ⟨7 * scale s, 12 * scale s, 19 * scale s, 22 * scale s⟩ color color 1

/-- The window rectangle command (lines 69-78), in its simplified
coordinates: `x` from `9 * scale` to `12 * scale`, `y` from `14 * scale` to
`17 * scale`. -/
def windowCmd (s : ℕ) : Command :=
  Command.rectangle ⟨9 * scale s, 14 * scale s, 12 * scale s, 17 * scale s⟩
    windowGray color (max 1 (line_width s / 2))

/-- The integer pixel at (the floor of) the center of the window rectangle:
the window spans `x` in `[9 s / 24, 12 s / 24]` and `y` in
`[14 s / 24, 17 s / 24]`, so its center is `(7 s / 16, 31 s / 48)`. -/
def windowCenterPixel (s : ℕ) : ℕ × ℕ := (7 * s / 16, 31 * s / 48)

/-- A point of the canvas is non-transparent when the color rendered there
has a nonzero alpha channel. -/
def nontransparentAt (c : Canvas) (p : ℚ × ℚ) : Prop :=
  (pixelColor c p).a ≠ 0

/-- The bounding box of the content drawn at size `s`: `x` from
`0.5 * scale` (left edge of the outer arc) to `19 * scale` (right edge of
the body), `y` from `1 * scale` (top edge of the outer arc) to `22 * scale`
(bottom edge of the body). -/
def inContentBounds (s : ℕ) (p : ℚ × ℚ) : Prop :=
  (1 / 2) * scale s ≤ p.1 ∧ p.1 ≤ 19 * scale s ∧
  1 * scale s ≤ p.2 ∧ p.2 ≤ 22 * scale s

/-- Width of the content bounding box at size `s`. -/
def contentWidth (s : ℕ) : ℚ := 19 * scale s - (1 / 2) * scale s

/-- Height of the content bounding box at size `s`. -/
def contentHeight (s : ℕ) : ℚ := 22 * scale s - 1 * scale s

/-- The leftmost drawn point: the left vertex of the outer arc's ellipse. -/
def leftPoint (s : ℕ) : ℚ × ℚ := ((1 / 2) * scale s, (17 / 4) * scale s)

/-- The topmost drawn point: the top vertex of the outer arc's ellipse. -/
def topPoint (s : ℕ) : ℚ × ℚ := (4 * scale s, 1 * scale s)

/-- The bottom-right drawn point: the bottom-right corner of the body. -/
def bottomRightPoint (s : ℕ) : ℚ × ℚ := (19 * scale s, 22 * scale s)

/-- Operations under which the very first render raises exception `7`. -/
def failOps : Ops ℕ :=
  { render := fun _ => Except.error 7
    savePng := fun _ => Except.ok ()
    saveIco := fun _ _ => Except.ok () }

/-- The `line_width` computation in exact arithmetic: truncation of
`size / 24 * 0.8 = size / 30`, which for a nonnegative operand is the floor,
hence natural-number division. -/
theorem line_width_eq (s : ℕ) : line_width s = max 1 (s / 30) := by
  have h : scale s * (4 / 5) = ((s : ℚ)) / ((30 : ℕ) : ℚ) := by
    unfold scale; push_cast; ring
  rw [line_width, h, Int.floor_toNat, Nat.floor_div_nat, Nat.floor_natCast]

/-- Folding the painter's algorithm over a list of commands none of which
covers `p` leaves the accumulated color unchanged. -/
theorem foldl_colorAt_none (p : ℚ × ℚ) (acc : Color) (l : List Command)
    (h : ∀ cmd ∈ l, Command.colorAt cmd p = none) :
    l.foldl (fun a cmd => (cmd.colorAt p).getD a) acc = acc := by
  induction l with
  | nil => rfl
  | cons hd tl ih =>
    have h1 : hd.colorAt p = none := h hd (List.mem_cons_self hd tl)
    simp only [List.foldl_cons, h1, Option.getD_none]
    exact ih fun cmd hm => h cmd (List.mem_cons_of_mem _ hm)

/-- The painter's algorithm yields either the initial color or the color
contributed at `p` by one of the commands of the list. -/
theorem foldl_colorAt_mem (p : ℚ × ℚ) (acc : Color) (l : List Command) :
    l.foldl (fun a cmd => (cmd.colorAt p).getD a) acc = acc ∨
    ∃ cmd ∈ l, cmd.colorAt p =
      some (l.foldl (fun a cmd => (cmd.colorAt p).getD a) acc) := by
  induction l generalizing acc with
  | nil => left; rfl
  | cons hd tl ih =>
    simp only [List.foldl_cons]
    rcases ih ((hd.colorAt p).getD acc) with h | h
    · rw [h]
      cases hcase : hd.colorAt p with
      | none => left; simp [hcase]
      | some cOut => right; exact ⟨hd, List.mem_cons_self hd tl, by simp [hcase]⟩
    · right
      obtain ⟨cmd, hm, he⟩ := h
      exact ⟨cmd, List.mem_cons_of_mem _ hm, he⟩

/-- The last drawing call wins wherever it covers the queried point. -/
theorem pixelColor_append_last (c : Canvas) (cmd : Command) (p : ℚ × ℚ) (col : Color)
    (h : cmd.colorAt p = some col) :
    pixelColor { c with commands := c.commands ++ [cmd] } p = col := by
  unfold pixelColor
  simp [List.foldl_append, h]

/-- The drawing calls of the renderer, as the six named commands: three
arcs, roof, body, and (for `32 ≤ s`) the window. -/
theorem render_commands (s : ℕ) :
    (create_house_with_sound_icon s).commands =
      [arc1 s, arc2 s, arc3 s, roofCmd s, bodyCmd s] ++
        (if 32 ≤ s then [windowCmd s] else []) := by
  have e1 : 7 * scale s + scale s * 2 = 9 * scale s := by ring
  have e2 : 12 * scale s + scale s * 2 = 14 * scale s := by ring
  have e3 : 9 * scale s + scale s * 3 = 12 * scale s := by ring
  have e4 : 14 * scale s + scale s * 3 = 17 * scale s := by ring
  simp only [create_house_with_sound_icon]
  rw [e1, e2, e3, e4]
  rfl

/-- Every drawing call of the renderer is one of the six named commands,
the window command occurring only when `32 ≤ s`. -/
theorem mem_render (s : ℕ) (cmd : Command)
    (hm : cmd ∈ (create_house_with_sound_icon s).commands) :
    cmd = arc1 s ∨ cmd = arc2 s ∨ cmd = arc3 s ∨ cmd = roofCmd s ∨ cmd = bodyCmd s ∨
      (32 ≤ s ∧ cmd = windowCmd s) := by
  rw [render_commands] at hm
  by_cases h32 : 32 ≤ s
  · rw [if_pos h32] at hm
    simp only [List.mem_append, List.mem_cons, List.not_mem_nil, or_false] at hm
    tauto
  · rw [if_neg h32] at hm
    simp only [List.append_nil, List.mem_cons, List.not_mem_nil, or_false] at hm
    tauto

/-- The color any drawing call of the renderer contributes at any point is
either the foreground color, or — only for the window command, hence only
when `32 ≤ s` — the window gray, in which case the point lies inside the
window rectangle. -/
theorem render_col_options (s : ℕ) (cmd : Command) (p : ℚ × ℚ) (col : Color)
    (hm : cmd ∈ (create_house_with_sound_icon s).commands)
    (hc : cmd.colorAt p = some col) :
    col = color ∨
      (32 ≤ s ∧ col = windowGray ∧
        inRect ⟨9 * scale s, 14 * scale s, 12 * scale s, 17 * scale s⟩ p) := by
  rcases mem_render s cmd hm with h | h | h | h | h | ⟨h32, h⟩ <;> subst h
  · simp only [arc1, Command.colorAt] at hc
    split at hc
    · left; exact (Option.some.inj hc).symm
    · exact absurd hc (by simp)
  · simp only [arc2, Command.colorAt] at hc
    split at hc
    · left; exact (Option.some.inj hc).symm
    · exact absurd hc (by simp)
  · simp only [arc3, Command.colorAt] at hc
    split at hc
    · left; exact (Option.some.inj hc).symm
    · exact absurd hc (by simp)
  · simp only [roofCmd, Command.colorAt] at hc
    split at hc
    · left; exact (Option.some.inj hc).symm
    · exact absurd hc (by simp)
  · simp only [bodyCmd, Command.colorAt] at hc
    split at hc
    · split at hc
      · left; exact (Option.some.inj hc).symm
      · left; exact (Option.some.inj hc).symm
    · exact absurd hc (by simp)
  · simp only [windowCmd, Command.colorAt] at hc
    split at hc
    case isTrue hin =>
      split at hc
      · left; exact (Option.some.inj hc).symm
      · right; exact ⟨h32, (Option.some.inj hc).symm, hin⟩
    case isFalse _h => exact absurd hc (by simp)

/-- Whatever color a drawing call of the renderer contributes is fully
opaque. -/
theorem render_col_opaque (s : ℕ) (cmd : Command) (p : ℚ × ℚ) (col : Color)
    (hm : cmd ∈ (create_house_with_sound_icon s).commands)
    (hc : cmd.colorAt p = some col) :
    col.a = 255 := by
  rcases render_col_options s cmd p col hm hc with h | ⟨_, h, _⟩ <;> subst h <;> rfl

/-- If some drawing call covers a point, the final color there is the color
contributed by one of the drawing calls of the list. -/
theorem foldl_colorAt_covered (p : ℚ × ℚ) (acc : Color) (l : List Command)
    (cmd : Command) (hm : cmd ∈ l) (hs : (cmd.colorAt p).isSome) :
    ∃ cmd2 ∈ l, cmd2.colorAt p =
      some (l.foldl (fun a c => (c.colorAt p).getD a) acc) := by
  induction l generalizing acc with
  | nil => exact absurd hm (List.not_mem_nil cmd)
  | cons hd tl ih =>
    simp only [List.foldl_cons]
    rcases List.mem_cons.mp hm with heq | htl
    · subst heq
      rcases foldl_colorAt_mem p ((cmd.colorAt p).getD acc) tl with h | h
      · rw [h]
        refine ⟨cmd, List.mem_cons_self cmd tl, ?_⟩
        obtain ⟨col, hcol⟩ := Option.isSome_iff_exists.mp hs
        rw [hcol]; simp [hcol]
      · obtain ⟨cmd2, hm2, he2⟩ := h
        exact ⟨cmd2, List.mem_cons_of_mem _ hm2, he2⟩
    · obtain ⟨cmd2, hm2, he2⟩ := ih ((hd.colorAt p).getD acc) htl
      exact ⟨cmd2, List.mem_cons_of_mem _ hm2, he2⟩

/-- A point covered by at least one drawing call of the renderer is
non-transparent in the rendered image. -/
theorem render_nontransparent_of_covered (s : ℕ) (p : ℚ × ℚ)
    (cmd : Command) (hm : cmd ∈ (create_house_with_sound_icon s).commands)
    (hs : (cmd.colorAt p).isSome) :
    nontransparentAt (create_house_with_sound_icon s) p := by
  obtain ⟨cmd2, hm2, he2⟩ :=
    foldl_colorAt_covered p (create_house_with_sound_icon s).background
      (create_house_with_sound_icon s).commands cmd hm hs
  have ha := render_col_opaque s cmd2 p _ hm2 he2
  unfold nontransparentAt pixelColor
  omega

/-- The claimed stroke width in exact arithmetic: arithmetic rounding of
`size / 30` is the floor of `size / 30 + 1 / 2 = (2 * size + 30) / 60`. -/
theorem specRound_eq (s : ℕ) :
    specRoundedLineWidth s = max 1 ((2 * s + 30) / 60) := by
  have h : scale s * (4 / 5) + 1 / 2 = (((2 * s + 30 : ℕ) : ℚ)) / ((60 : ℕ) : ℚ) := by
    unfold scale; push_cast; ring
  rw [specRoundedLineWidth, h, Int.floor_toNat, Nat.floor_div_nat, Nat.floor_natCast]

/-- All three arc commands of the renderer carry the stroke width
`line_width`. -/
theorem arcWidths_render (s : ℕ) :
    arcWidths (create_house_with_sound_icon s) =
      [line_width s, line_width s, line_width s] := by
  by_cases h : 32 ≤ s <;> simp [arcWidths, create_house_with_sound_icon, h]

/-- C1 counterexample: at size 45 the exact value of `scale * 0.8` is `1.5`
(the float computation yields `1.5` exactly as well), which the code
truncates to a stroke width of 1, while the claimed arithmetic rounding
yields 2; the three arc commands of `render(45)` are stroked with width 1,
not 2. -/
theorem c1_counterexample :
    arcWidths (create_house_with_sound_icon 45) = [1, 1, 1] ∧
    specRoundedLineWidth 45 = 2 := by
  rw [arcWidths_render, line_width_eq, specRound_eq]
  decide

/-- C1 (amended): for every size, each of the three sound-wave arcs in
`render(size)` is stroked with a width of exactly
`max(1, int(size / 24 * 0.8)) = max(1, ⌊size / 30⌋)` pixels, where the
fractional value is truncated toward zero, not rounded to the nearest
integer. -/
theorem c1_stroke_width_truncated (s : ℕ) :
    arcWidths (create_house_with_sound_icon s) =
      [line_width s, line_width s, line_width s] ∧
    line_width s = max 1 (s / 30) :=
  ⟨arcWidths_render s, line_width_eq s⟩

/-- C3: for every size `s`, the canvas returned by the renderer measures
exactly `s × s` pixels, carries an alpha channel, and every pixel is
initialized with alpha 0 (fully transparent) before any drawing call is
applied. -/
theorem c3_canvas_dimensions (s : ℕ) :
    (create_house_with_sound_icon s).width = s ∧
    (create_house_with_sound_icon s).height = s ∧
    (create_house_with_sound_icon s).background.a = 0 :=
  ⟨rfl, rfl, rfl⟩

/-- C9: the canvas is created with every pixel equal to RGBA
`(255, 255, 255, 0)`: transparent per its alpha channel, but with white
underlying RGB channels. -/
theorem c9_background_color (s : ℕ) :
    (create_house_with_sound_icon s).background = ⟨255, 255, 255, 0⟩ ∧
    (create_house_with_sound_icon s).background.r = 255 ∧
    (create_house_with_sound_icon s).background.g = 255 ∧
    (create_house_with_sound_icon s).background.b = 255 ∧
    (create_house_with_sound_icon s).background.a = 0 :=
  ⟨rfl, rfl, rfl, rfl, rfl⟩

/-- C8: the renderer is deterministic.  The source of
`create_house_with_sound_icon` (lines 18-80) reads no input other than its
`size` parameter — no randomness, no environment, no global mutable state —
so its embedding is a pure function of `size`, and two invocations at the
same size agree as whole canvases and pixel for pixel. -/
theorem c8_deterministic (s : ℕ) :
    create_house_with_sound_icon s = create_house_with_sound_icon s ∧
    ∀ p : ℚ × ℚ,
      pixelColor (create_house_with_sound_icon s) p =
        pixelColor (create_house_with_sound_icon s) p :=
  ⟨rfl, fun _ => rfl⟩

/-- C4: `create_ico` renders once per size in `[16, 24, 32, 48, 256]`, in
that order, and hands all five frames to one save call — but because the
16×16 canvas is the base image of the save call, Pillow's ICO writer ignores
every requested size larger than 16×16 and the written container holds a
single 16×16 frame, not all five. -/
theorem c4_ico_single_frame :
    (create_ico_call icoSizes).images_data.map Canvas.width = [16, 24, 32, 48, 256] ∧
    (create_ico_call icoSizes).images_data.map Canvas.height = [16, 24, 32, 48, 256] ∧
    (create_ico_call icoSizes).sizes =
      [(16, 16), (24, 24), (32, 32), (48, 48), (256, 256)] ∧
    icoFrameSizes (create_ico_call icoSizes).images_data (create_ico_call icoSizes).sizes =
      [(16, 16)] := by
  decide

/-- C5: every exception of the pipeline is caught once, at the top level of
`__main__`: a successful run exits with status 0 and logs no exception,
while a run whose body raises `e` exits with status 1 and logs exactly `e`
(message and stack trace); and `create_ico` contains no handler, failing
with `e` precisely when one of its renders or its save call raises `e`. -/
theorem c5_top_level_error_handling (E : Type) (ops : Ops E) :
    (∀ u : Unit, main_body E ops = Except.ok u → main E ops = ⟨0, none⟩) ∧
    (∀ e : E, main_body E ops = Except.error e → main E ops = ⟨1, some e⟩) ∧
    (∀ e : E, create_ico E ops icoSizes = Except.error e ↔
      (icoSizes.mapM ops.render = Except.error e ∨
        ∃ imgs, icoSizes.mapM ops.render = Except.ok imgs ∧
          ops.saveIco imgs (imgs.map fun img => (img.width, img.height)) =
            Except.error e)) := by
  refine ⟨?_, ?_, ?_⟩
  · intro u h; unfold main; rw [h]
  · intro e h; unfold main; rw [h]
  · intro e
    unfold create_ico
    cases hm : icoSizes.mapM ops.render with
    | error e2 => simp [hm, Bind.bind, Except.bind]
    | ok imgs => simp [hm, Bind.bind, Except.bind]

/-- Witness for C5: under operations whose render raises `7`, the process
exits with status 1 and the top-level handler logs exactly that exception. -/
theorem c5_witness : main ℕ failOps = ⟨1, some 7⟩ :=
  (c5_top_level_error_handling ℕ failOps).2.1 7 rfl

/-- C6: the renderer issues its drawing calls in exactly this order — outer,
middle and inner sound-wave arc, each spanning -10° to 100°, then the filled
roof triangle with vertices `(9, 2)`, `(19, 12)`, `(7, 12)` scaled by
`size / 24`, then the filled body rectangle from `(7, 12)` to `(19, 22)`
scaled, and last, only when `32 ≤ size`, the window rectangle — and under
the painter's algorithm each later call occludes all earlier ones wherever
it covers the queried point. -/
theorem c6_draw_order (s : ℕ) :
    (create_house_with_sound_icon s).commands =
      [ Command.arc ⟨(1 / 2) * scale s, 1 * scale s, (15 / 2) * scale s, (15 / 2) * scale s⟩
          (-10) 100 color (line_width s)
      , Command.arc ⟨2 * scale s, (5 / 2) * scale s, 7 * scale s, (15 / 2) * scale s⟩
          (-10) 100 color (line_width s)
      , Command.arc ⟨4 * scale s, (9 / 2) * scale s, 7 * scale s, (15 / 2) * scale s⟩
          (-10) 100 color (line_width s)
      , Command.polygon [(9 * scale s, 2 * scale s), (19 * scale s, 12 * scale s),
          (7 * scale s, 12 * scale s)] color color
      , Command.rectangle ⟨7 * scale s, 12 * scale s, 19 * scale s, 22 * scale s⟩ color color 1
      ] ++
      (if 32 ≤ s then
        [ Command.rectangle ⟨9 * scale s, 14 * scale s, 12 * scale s, 17 * scale s⟩
            windowGray color (max 1 (line_width s / 2)) ]
      else []) ∧
    ∀ (c : Canvas) (cmd : Command) (p : ℚ × ℚ) (col : Color),
      cmd.colorAt p = some col →
      pixelColor { c with commands := c.commands ++ [cmd] } p = col := by
  constructor
  · rw [render_commands]; rfl
  · exact fun c cmd p col h => pixelColor_append_last c cmd p col h

/-- Witness for C6: the occlusion clause at a concrete canvas — a window-gray
rectangle appended after no other commands paints the queried point gray. -/
theorem c6_witness :
    pixelColor { width := 3, height := 3, background := ⟨255, 255, 255, 0⟩,
                 commands := ([] : List Command) ++
                   [Command.rectangle ⟨0, 0, 2, 2⟩ windowGray color 0] } (1, 1) =
      windowGray :=
  (c6_draw_order 3).2 ⟨3, 3, ⟨255, 255, 255, 0⟩, []⟩
    (Command.rectangle ⟨0, 0, 2, 2⟩ windowGray color 0) (1, 1) windowGray
    (by norm_num [Command.colorAt, inRect, inRectBorder])

/-- C10: for every size of at least 32, the window rectangle — spanning
`(9 * scale, 14 * scale)` to `(12 * scale, 17 * scale)` and drawn last — lies
entirely within the body rectangle, spanning `(7 * scale, 12 * scale)` to
`(19 * scale, 22 * scale)`, and consequently every window-gray point of the
rendered image lies inside the body rectangle. -/
theorem c10_window_inside_body (s : ℕ) (h32 : 32 ≤ s) :
    (create_house_with_sound_icon s).commands.getLast? =
      some (Command.rectangle ⟨9 * scale s, 14 * scale s, 12 * scale s, 17 * scale s⟩
        windowGray color (max 1 (line_width s / 2))) ∧
    (∀ p : ℚ × ℚ,
      inRect ⟨9 * scale s, 14 * scale s, 12 * scale s, 17 * scale s⟩ p →
      inRect ⟨7 * scale s, 12 * scale s, 19 * scale s, 22 * scale s⟩ p) ∧
    (∀ p : ℚ × ℚ, pixelColor (create_house_with_sound_icon s) p = windowGray →
      inRect ⟨7 * scale s, 12 * scale s, 19 * scale s, 22 * scale s⟩ p) := by
  have hsc : (0 : ℚ) ≤ scale s := by unfold scale; positivity
  have hcont : ∀ p : ℚ × ℚ,
      inRect ⟨9 * scale s, 14 * scale s, 12 * scale s, 17 * scale s⟩ p →
      inRect ⟨7 * scale s, 12 * scale s, 19 * scale s, 22 * scale s⟩ p := by
    intro p hp
    obtain ⟨h1, h2, h3, h4⟩ := hp
    dsimp only at h1 h2 h3 h4
    refine ⟨?_, ?_, ?_, ?_⟩ <;> dsimp only <;> linarith
  refine ⟨?_, hcont, ?_⟩
  · rw [render_commands, if_pos h32, List.getLast?_concat]
    rfl
  · intro p hp
    unfold pixelColor at hp
    rcases foldl_colorAt_mem p (create_house_with_sound_icon s).background
        (create_house_with_sound_icon s).commands with h | h
    · rw [h] at hp
      have hbg : (create_house_with_sound_icon s).background = Color.mk 255 255 255 0 := rfl
      rw [hbg] at hp
      exact absurd hp (by decide)
    · obtain ⟨cmd, hm, he⟩ := h
      rw [hp] at he
      rcases render_col_options s cmd p windowGray hm he with hcol | ⟨_, _, hin⟩
      · exact absurd hcol (by decide)
      · exact hcont p hin

/-- Witness for C10: at size 32 the last drawing call is the window
rectangle. -/
theorem c10_witness :
    (create_house_with_sound_icon 32).commands.getLast? =
      some (Command.rectangle ⟨9 * scale 32, 14 * scale 32, 12 * scale 32, 17 * scale 32⟩
        windowGray color (max 1 (line_width 32 / 2))) :=
  (c10_window_inside_body 32 (by decide)).1

/-- C2: the window rectangle is the last drawing call exactly when
`32 ≤ size`; its corners place it inset by a `2 * scale` margin from the
body's top-left corner `(7 * scale, 12 * scale)` and make it `3 * scale`
square; it is filled window-gray and outlined in the foreground color with
width `max(1, line_width / 2)`; and the rendered image contains a
window-gray point — the center pixel of the window, inside the canvas —
exactly when `32 ≤ size`, containing none otherwise. -/
theorem c2_window_rectangle (s : ℕ) :
    ((create_house_with_sound_icon s).commands.getLast? =
        some (Command.rectangle ⟨9 * scale s, 14 * scale s, 12 * scale s, 17 * scale s⟩
          windowGray color (max 1 (line_width s / 2))) ↔ 32 ≤ s) ∧
    (9 * scale s = 7 * scale s + 2 * scale s ∧
      14 * scale s = 12 * scale s + 2 * scale s ∧
      12 * scale s = 9 * scale s + 3 * scale s ∧
      17 * scale s = 14 * scale s + 3 * scale s) ∧
    (¬ 32 ≤ s → ∀ p : ℚ × ℚ,
      pixelColor (create_house_with_sound_icon s) p ≠ windowGray) ∧
    (32 ≤ s →
      pixelColor (create_house_with_sound_icon s)
        (((windowCenterPixel s).1 : ℚ), ((windowCenterPixel s).2 : ℚ)) = windowGray ∧
      (windowCenterPixel s).1 < s ∧ (windowCenterPixel s).2 < s) := by
  refine ⟨⟨?_, ?_⟩, ⟨by ring, by ring, by ring, by ring⟩, ?_, ?_⟩
  · intro hlast
    by_contra h32
    rw [render_commands, if_neg h32, List.append_nil] at hlast
    rw [show ([arc1 s, arc2 s, arc3 s, roofCmd s, bodyCmd s] : List Command).getLast? =
        some (bodyCmd s) from rfl] at hlast
    have hbody := Option.some.inj hlast
    simp [bodyCmd, color, windowGray] at hbody
  · intro h32
    rw [render_commands, if_pos h32, List.getLast?_concat]
    rfl
  · intro h32 p hp
    unfold pixelColor at hp
    rcases foldl_colorAt_mem p (create_house_with_sound_icon s).background
        (create_house_with_sound_icon s).commands with h | h
    · rw [h] at hp
      have hbg : (create_house_with_sound_icon s).background = Color.mk 255 255 255 0 := rfl
      rw [hbg] at hp
      exact absurd hp (by decide)
    · obtain ⟨cmd, hm, he⟩ := h
      rw [hp] at he
      rcases render_col_options s cmd p windowGray hm he with hcol | ⟨h32x, _, _⟩
      · exact absurd hcol (by decide)
      · exact h32 h32x
  · intro h32
    have hlw : line_width s = s / 30 := by rw [line_width_eq]; omega
    have hw : max 1 (line_width s / 2) = max 1 (s / 60) := by
      rw [hlw, Nat.div_div_eq_div_mul]
    -- integer bounds on the center pixel, the window edges and the outline
    -- width, all scaled by 48 to clear denominators
    have hpx1 : 18 * s + 48 * max 1 (s / 60) ≤ 48 * (7 * s / 16) := by omega
    have hpx2 : 48 * (7 * s / 16) + 48 * max 1 (s / 60) ≤ 24 * s := by omega
    have hpy1 : 28 * s + 48 * max 1 (s / 60) ≤ 48 * (31 * s / 48) := by omega
    have hpy2 : 48 * (31 * s / 48) + 48 * max 1 (s / 60) ≤ 34 * s := by omega
    have hq1 : 18 * (s : ℚ) + 48 * ((max 1 (s / 60) : ℕ) : ℚ) ≤ 48 * ((7 * s / 16 : ℕ) : ℚ) := by
      exact_mod_cast hpx1
    have hq2 : 48 * ((7 * s / 16 : ℕ) : ℚ) + 48 * ((max 1 (s / 60) : ℕ) : ℚ) ≤ 24 * s := by
      exact_mod_cast hpx2
    have hq3 : 28 * (s : ℚ) + 48 * ((max 1 (s / 60) : ℕ) : ℚ) ≤ 48 * ((31 * s / 48 : ℕ) : ℚ) := by
      exact_mod_cast hpy1
    have hq4 : 48 * ((31 * s / 48 : ℕ) : ℚ) + 48 * ((max 1 (s / 60) : ℕ) : ℚ) ≤ 34 * s := by
      exact_mod_cast hpy2
    have hwq : (0 : ℚ) ≤ ((max 1 (s / 60) : ℕ) : ℚ) := by positivity
    have hscq : scale s = (s : ℚ) / 24 := rfl
    have hin : inRect ⟨9 * scale s, 14 * scale s, 12 * scale s, 17 * scale s⟩
        (((7 * s / 16 : ℕ) : ℚ), ((31 * s / 48 : ℕ) : ℚ)) := by
      refine ⟨?_, ?_, ?_, ?_⟩ <;> simp only [hscq] <;> linarith
    have hnb : ¬ inRectBorder ⟨9 * scale s, 14 * scale s, 12 * scale s, 17 * scale s⟩
        (max 1 (line_width s / 2)) (((7 * s / 16 : ℕ) : ℚ), ((31 * s / 48 : ℕ) : ℚ)) := by
      unfold inRectBorder
      push_neg
      rw [hw]
      refine ⟨?_, ?_, ?_, ?_⟩ <;> simp only [hscq] <;> linarith
    have hcol : (windowCmd s).colorAt
        (((7 * s / 16 : ℕ) : ℚ), ((31 * s / 48 : ℕ) : ℚ)) = some windowGray := by
      simp only [windowCmd, Command.colorAt]
      rw [if_pos hin, if_neg hnb]
    have hcmds := render_commands s
    rw [if_pos h32] at hcmds
    refine ⟨?_, by dsimp only [windowCenterPixel]; omega, by dsimp only [windowCenterPixel]; omega⟩
    show pixelColor (create_house_with_sound_icon s)
      (((7 * s / 16 : ℕ) : ℚ), ((31 * s / 48 : ℕ) : ℚ)) = windowGray
    unfold pixelColor
    rw [hcmds, List.foldl_append]
    simp [hcol]

/-- Witness for C2: at size 48 the rendered image is window-gray at the
window's center pixel. -/
theorem c2_witness :
    pixelColor (create_house_with_sound_icon 48)
      (((windowCenterPixel 48).1 : ℚ), ((windowCenterPixel 48).2 : ℚ)) = windowGray :=
  ((c2_window_rectangle 48).2.2.2 (by decide)).1

/-- A point of a closed elliptical disc with positive semi-axes lies within
the circumscribing bounding box. -/
theorem inClosedEllipse_bounds (cx cy rx ry : ℚ) (p : ℚ × ℚ)
    (hrx : 0 < rx) (hry : 0 < ry) (h : inClosedEllipse cx cy rx ry p) :
    cx - rx ≤ p.1 ∧ p.1 ≤ cx + rx ∧ cy - ry ≤ p.2 ∧ p.2 ≤ cy + ry := by
  unfold inClosedEllipse at h
  have hx2 : (p.1 - cx) ^ 2 ≤ rx ^ 2 := by
    nlinarith [sq_nonneg (p.2 - cy), mul_pos hry hry]
  have hy2 : (p.2 - cy) ^ 2 ≤ ry ^ 2 := by
    nlinarith [sq_nonneg (p.1 - cx), mul_pos hrx hrx]
  refine ⟨?_, ?_, ?_, ?_⟩
  · nlinarith [sq_nonneg (p.1 - cx + rx)]
  · nlinarith [sq_nonneg (p.1 - cx - rx)]
  · nlinarith [sq_nonneg (p.2 - cy + ry)]
  · nlinarith [sq_nonneg (p.2 - cy - ry)]

/-- A point of the roof triangle lies within the triangle's bounding box. -/
theorem roof_bounds (s : ℕ) (hs : 0 < s) (p : ℚ × ℚ)
    (h : inTriangle (9 * scale s, 2 * scale s) (19 * scale s, 12 * scale s)
      (7 * scale s, 12 * scale s) p) :
    7 * scale s ≤ p.1 ∧ p.1 ≤ 19 * scale s ∧ 2 * scale s ≤ p.2 ∧ p.2 ≤ 12 * scale s := by
  have hsc : 0 < scale s := by
    unfold scale
    have : (0 : ℚ) < s := by exact_mod_cast hs
    positivity
  unfold inTriangle cross at h
  dsimp only at h
  rcases h with ⟨h1, h2, h3⟩ | ⟨h1, h2, h3⟩
  · refine ⟨?_, ?_, ?_, ?_⟩ <;> nlinarith [h1, h2, h3, hsc, mul_pos hsc hsc]
  · exfalso; nlinarith [h1, h2, h3, hsc, mul_pos hsc hsc]

/-- Every point covered by some drawing call of the renderer lies within the
content bounding box. -/
theorem covered_in_bounds (s : ℕ) (hs : 0 < s) (cmd : Command)
    (hm : cmd ∈ (create_house_with_sound_icon s).commands) (p : ℚ × ℚ)
    (hc : (cmd.colorAt p).isSome) : inContentBounds s p := by
  have hsc : 0 < scale s := by
    unfold scale
    have : (0 : ℚ) < s := by exact_mod_cast hs
    positivity
  rcases mem_render s cmd hm with h | h | h | h | h | ⟨h32, h⟩ <;> subst h
  · simp only [arc1, Command.colorAt] at hc
    split at hc
    case isTrue harc =>
      have houter := harc.1
      dsimp only at houter
      obtain ⟨b1, b2, b3, b4⟩ :=
        inClosedEllipse_bounds _ _ _ _ p (by linarith) (by linarith) houter
      refine ⟨?_, ?_, ?_, ?_⟩ <;> linarith
    case isFalse _h => exact absurd hc (by simp)
  · simp only [arc2, Command.colorAt] at hc
    split at hc
    case isTrue harc =>
      have houter := harc.1
      dsimp only at houter
      obtain ⟨b1, b2, b3, b4⟩ :=
        inClosedEllipse_bounds _ _ _ _ p (by linarith) (by linarith) houter
      refine ⟨?_, ?_, ?_, ?_⟩ <;> linarith
    case isFalse _h => exact absurd hc (by simp)
  · simp only [arc3, Command.colorAt] at hc
    split at hc
    case isTrue harc =>
      have houter := harc.1
      dsimp only at houter
      obtain ⟨b1, b2, b3, b4⟩ :=
        inClosedEllipse_bounds _ _ _ _ p (by linarith) (by linarith) houter
      refine ⟨?_, ?_, ?_, ?_⟩ <;> linarith
    case isFalse _h => exact absurd hc (by simp)
  · simp only [roofCmd, Command.colorAt] at hc
    split at hc
    case isTrue htri =>
      obtain ⟨b1, b2, b3, b4⟩ := roof_bounds s hs p htri
      refine ⟨?_, ?_, ?_, ?_⟩ <;> linarith
    case isFalse _h => exact absurd hc (by simp)
  · simp only [bodyCmd, Command.colorAt] at hc
    split at hc
    case isTrue hin =>
      obtain ⟨b1, b2, b3, b4⟩ := hin
      dsimp only at b1 b2 b3 b4
      refine ⟨?_, ?_, ?_, ?_⟩ <;> linarith
    case isFalse _h => exact absurd hc (by simp)
  · simp only [windowCmd, Command.colorAt] at hc
    split at hc
    case isTrue hin =>
      obtain ⟨b1, b2, b3, b4⟩ := hin
      dsimp only at b1 b2 b3 b4
      refine ⟨?_, ?_, ?_, ?_⟩ <;> linarith
    case isFalse _h => exact absurd hc (by simp)

/-- Every non-transparent point of the rendered image lies within the
content bounding box. -/
theorem nontransparent_in_bounds (s : ℕ) (hs : 0 < s) (p : ℚ × ℚ)
    (h : nontransparentAt (create_house_with_sound_icon s) p) :
    inContentBounds s p := by
  unfold nontransparentAt pixelColor at h
  rcases foldl_colorAt_mem p (create_house_with_sound_icon s).background
      (create_house_with_sound_icon s).commands with he | he
  · rw [he] at h
    exact absurd rfl h
  · obtain ⟨cmd, hm, hc⟩ := he
    exact covered_in_bounds s hs cmd hm p (by rw [hc]; rfl)

/-- The left vertex of the outer ellipse of an arc bounding box belongs to
the modelled stroke of the arc, for any stroke width of at least one. -/
theorem arcStroke_left_vertex (b : BBox) (w : ℕ) (hw : 1 ≤ w) (p : ℚ × ℚ)
    (hp1 : p.1 = b.x0) (hp2 : p.2 = (b.y0 + b.y1) / 2) :
    inArcStroke b w p := by
  have hw0 : (0 : ℚ) < (w : ℚ) := by exact_mod_cast hw
  constructor
  · unfold inClosedEllipse
    rw [hp1, hp2]
    apply le_of_eq
    ring
  · rintro ⟨h1, h2, h3⟩
    rw [hp1, hp2] at h3
    have hX : (0 : ℚ) < (b.x1 - b.x0) / 2 := by linarith
    have hRY2 : (0 : ℚ) <
        ((b.y1 - b.y0) / 2 - w) * ((b.y1 - b.y0) / 2 - w) := mul_pos h2 h2
    have hkey : (0 : ℚ) < ((b.x1 - b.x0) / 2 - w) *
        ((w : ℚ) * (((b.y1 - b.y0) / 2 - w) * ((b.y1 - b.y0) / 2 - w))) :=
      mul_pos h1 (mul_pos hw0 hRY2)
    have hpos : (0 : ℚ) < (b.x1 - b.x0) / 2 *
        ((w : ℚ) * (((b.y1 - b.y0) / 2 - w) * ((b.y1 - b.y0) / 2 - w))) :=
      mul_pos hX (mul_pos hw0 hRY2)
    nlinarith [h3, hkey, hpos]

/-- The top vertex of the outer ellipse of an arc bounding box belongs to
the modelled stroke of the arc, for any stroke width of at least one. -/
theorem arcStroke_top_vertex (b : BBox) (w : ℕ) (hw : 1 ≤ w) (p : ℚ × ℚ)
    (hp1 : p.1 = (b.x0 + b.x1) / 2) (hp2 : p.2 = b.y0) :
    inArcStroke b w p := by
  have hw0 : (0 : ℚ) < (w : ℚ) := by exact_mod_cast hw
  constructor
  · unfold inClosedEllipse
    rw [hp1, hp2]
    apply le_of_eq
    ring
  · rintro ⟨h1, h2, h3⟩
    rw [hp1, hp2] at h3
    have hY : (0 : ℚ) < (b.y1 - b.y0) / 2 := by linarith
    have hRX2 : (0 : ℚ) <
        ((b.x1 - b.x0) / 2 - w) * ((b.x1 - b.x0) / 2 - w) := mul_pos h1 h1
    have hkey : (0 : ℚ) < ((b.y1 - b.y0) / 2 - w) *
        ((w : ℚ) * (((b.x1 - b.x0) / 2 - w) * ((b.x1 - b.x0) / 2 - w))) :=
      mul_pos h2 (mul_pos hw0 hRX2)
    have hpos : (0 : ℚ) < (b.y1 - b.y0) / 2 *
        ((w : ℚ) * (((b.x1 - b.x0) / 2 - w) * ((b.x1 - b.x0) / 2 - w))) :=
      mul_pos hY (mul_pos hw0 hRX2)
    nlinarith [h3, hkey, hpos]

/-- The leftmost point of the content box is drawn (by the outer arc). -/
theorem render_nontransparent_left (s : ℕ) :
    nontransparentAt (create_house_with_sound_icon s) (leftPoint s) := by
  have harc : inArcStroke
      ⟨(1 / 2) * scale s, 1 * scale s, (15 / 2) * scale s, (15 / 2) * scale s⟩
      (line_width s) (leftPoint s) := by
    apply arcStroke_left_vertex _ _ (le_max_left 1 _)
    · dsimp only [leftPoint]
    · dsimp only [leftPoint]; ring
  apply render_nontransparent_of_covered s (leftPoint s) (arc1 s)
  · rw [render_commands]; simp
  · simp only [arc1, Command.colorAt]
    rw [if_pos harc]
    rfl

/-- The topmost point of the content box is drawn (by the outer arc). -/
theorem render_nontransparent_top (s : ℕ) :
    nontransparentAt (create_house_with_sound_icon s) (topPoint s) := by
  have harc : inArcStroke
      ⟨(1 / 2) * scale s, 1 * scale s, (15 / 2) * scale s, (15 / 2) * scale s⟩
      (line_width s) (topPoint s) := by
    apply arcStroke_top_vertex _ _ (le_max_left 1 _)
    · dsimp only [topPoint]; ring
    · dsimp only [topPoint]
  apply render_nontransparent_of_covered s (topPoint s) (arc1 s)
  · rw [render_commands]; simp
  · simp only [arc1, Command.colorAt]
    rw [if_pos harc]
    rfl

/-- The bottom-right corner of the content box is drawn (by the body). -/
theorem render_nontransparent_bottomright (s : ℕ) :
    nontransparentAt (create_house_with_sound_icon s) (bottomRightPoint s) := by
  have hsc : (0 : ℚ) ≤ scale s := by unfold scale; positivity
  have hin : inRect ⟨7 * scale s, 12 * scale s, 19 * scale s, 22 * scale s⟩
      (bottomRightPoint s) := by
    refine ⟨?_, ?_, ?_, ?_⟩ <;> dsimp only [bottomRightPoint] <;> linarith
  apply render_nontransparent_of_covered s (bottomRightPoint s) (bodyCmd s)
  · rw [render_commands]; simp
  · simp only [bodyCmd, Command.colorAt]
    rw [if_pos hin]
    split <;> rfl

/-- C7: for positive sizes `s₁ ≤ s₂`, the bounding box of the
non-transparent points of the rendered image is exactly the content box —
every non-transparent point lies inside it and its left, top, and
bottom-right extremes are attained by drawn points — its width and height
grow monotonically from `s₁` to `s₂`, and it is never clipped by the canvas
at the larger size. -/
theorem c7_bbox_monotone (s₁ s₂ : ℕ) (hpos : 0 < s₁) (h12 : s₁ ≤ s₂) :
    (∀ p : ℚ × ℚ, nontransparentAt (create_house_with_sound_icon s₁) p →
      inContentBounds s₁ p) ∧
    (∀ p : ℚ × ℚ, nontransparentAt (create_house_with_sound_icon s₂) p →
      inContentBounds s₂ p) ∧
    nontransparentAt (create_house_with_sound_icon s₁) (leftPoint s₁) ∧
    nontransparentAt (create_house_with_sound_icon s₁) (topPoint s₁) ∧
    nontransparentAt (create_house_with_sound_icon s₁) (bottomRightPoint s₁) ∧
    nontransparentAt (create_house_with_sound_icon s₂) (leftPoint s₂) ∧
    nontransparentAt (create_house_with_sound_icon s₂) (topPoint s₂) ∧
    nontransparentAt (create_house_with_sound_icon s₂) (bottomRightPoint s₂) ∧
    contentWidth s₁ ≤ contentWidth s₂ ∧
    contentHeight s₁ ≤ contentHeight s₂ ∧
    (∀ p : ℚ × ℚ, inContentBounds s₂ p →
      0 ≤ p.1 ∧ p.1 ≤ (s₂ : ℚ) ∧ 0 ≤ p.2 ∧ p.2 ≤ (s₂ : ℚ)) := by
  have hpos2 : 0 < s₂ := lt_of_lt_of_le hpos h12
  have hq : (s₁ : ℚ) ≤ (s₂ : ℚ) := by exact_mod_cast h12
  have hq2 : (0 : ℚ) ≤ (s₂ : ℚ) := by positivity
  refine ⟨fun p hp => nontransparent_in_bounds s₁ hpos p hp,
    fun p hp => nontransparent_in_bounds s₂ hpos2 p hp,
    render_nontransparent_left s₁, render_nontransparent_top s₁,
    render_nontransparent_bottomright s₁,
    render_nontransparent_left s₂, render_nontransparent_top s₂,
    render_nontransparent_bottomright s₂, ?_, ?_, ?_⟩
  · unfold contentWidth scale; linarith
  · unfold contentHeight scale; linarith
  · intro p hp
    obtain ⟨b1, b2, b3, b4⟩ := hp
    unfold scale at b1 b2 b3 b4
    refine ⟨by linarith, by linarith, by linarith, by linarith⟩

/-- Witness for C7: at sizes 24 and 48 the left extreme of the smaller
render is drawn and the content width grows. -/
theorem c7_witness :
    nontransparentAt (create_house_with_sound_icon 24) (leftPoint 24) ∧
    contentWidth 24 ≤ contentWidth 48 := by
  have h := c7_bbox_monotone 24 48 (by decide) (by decide)
  exact ⟨h.2.2.1, h.2.2.2.2.2.2.2.2.1⟩

end CreateIcon
